import Mathlib

/-!
# Tic-Tac-Toe game logic (`js/script.js`)

A shallow embedding of the game logic of `js/script.js`: the three game
variables `board`, `currentPlayer`, `gameActive`, the status line written to
`statusDisplay`, the table `winningConditions`, and the handlers
`handleCellClick`, `handleResultValidation`, `handlePlayerChange` and
`handleResetGame`.

Modelling conventions.

* Cells and players are the JavaScript strings of the script: a cell is `""`,
  `"X"` or `"O"` in every state the script reaches, but the state type does not
  assume it.
* A read `board[k]` is `Option String`: `none` is JavaScript's `undefined`
  (index outside the array).  `===` and `!==` on such values are equality and
  disequality of `Option String`.
* The click index is the integer produced by `parseInt`.
* The markup written to `statusDisplay.innerHTML` is kept as a tagged value
  (`Status`); cell markup, the strike line geometry and the celebration class
  are rendering only and are left out.
-/

namespace TicTacToe

/-! ## Data model -/

/-- The three messages the script writes to `statusDisplay.innerHTML`:
"Player p's Turn", "Player p has won!", "Game ended in a draw!". -/
inductive Status where
  | turn (player : String)
  | won (player : String)
  | draw
  deriving DecidableEq, Repr

/-- The mutable game variables of the script (lines 9-11) together with the
status line. -/
structure State where
  board : List String
  currentPlayer : String
  gameActive : Bool
  statusDisplay : Status
  deriving DecidableEq, Repr

/-- The state after the script has loaded (lines 9-11 and 176). -/
def initialState : State :=
  { board := ["", "", "", "", "", "", "", "", ""]
    currentPlayer := "X"
    gameActive := true
    statusDisplay := Status.turn "X" }

/-- The table `winningConditions` (lines 14-23); an entry `[p, q, r]` is the
triple `(p, q, r)`. -/
def winningConditions : List (Nat × Nat × Nat) :=
  [ (0, 1, 2), (3, 4, 5), (6, 7, 8),
    (0, 3, 6), (1, 4, 7), (2, 5, 8),
    (0, 4, 8), (2, 4, 6) ]

/-! ## Array access -/

/-- The read `board[i]` for an integer `i`; `none` is `undefined`. -/
def boardGet (board : List String) (i : Int) : Option String :=
  if i < 0 then none else board[i.toNat]?

/-- The assignment `board[i] = v` on an index that is an element of the array.
`handleCellClick` reaches the assignment only after `board[i] === ''`, which
holds only for such an index (`boardGet_some_iff`); for any other index the
model leaves the list as it is. -/
def boardSet (board : List String) (i : Int) (v : String) : List String :=
  if i < 0 then board else board.set i.toNat v

/-! ## Operations -/

/-- The body of the loop of `handleResultValidation` (lines 65-81) over the
remaining entries of the table: `continue` when one of the three cells is `''`,
`break` with the entry when the three cells are equal. -/
def scanConditions (board : List String) :
    List (Nat × Nat × Nat) → Option (Nat × Nat × Nat)
  | [] => none
  | condition :: rest =>
    let a := board[condition.1]?
    let b := board[condition.2.1]?
    let c := board[condition.2.2]?
    if a = some "" ∨ b = some "" ∨ c = some "" then scanConditions board rest
    else if a = b ∧ b = c then some condition
    else scanConditions board rest

/-- The value of `winCondition` when the loop of `handleResultValidation` ends;
`roundWon` is true exactly when it is `some _`. -/
def winCondition (board : List String) : Option (Nat × Nat × Nat) :=
  scanConditions board winningConditions

/-- The function `handlePlayerChange` (lines 144-147). -/
def handlePlayerChange (s : State) : State :=
  let next := if s.currentPlayer = "X" then "O" else "X"
  { s with currentPlayer := next, statusDisplay := Status.turn next }

/-- The function `handleResultValidation` (lines 60-139). -/
def handleResultValidation (s : State) : State :=
  match winCondition s.board with
  | some _ => { s with gameActive := false, statusDisplay := Status.won s.currentPlayer }
  | none =>
    if "" ∉ s.board then { s with gameActive := false, statusDisplay := Status.draw }
    else handlePlayerChange s

/-- The game-logic part of `handleCellClick` (lines 29-55); `i` is
`clickedCellIndex`. -/
def handleCellClick (s : State) (i : Int) : State :=
  if boardGet s.board i ≠ some "" ∨ s.gameActive = false then s
  else handleResultValidation { s with board := boardSet s.board i s.currentPlayer }

/-- The function `handleResetGame` (lines 152-167). -/
def handleResetGame (_s : State) : State :=
  { board := ["", "", "", "", "", "", "", "", ""]
    gameActive := true
    currentPlayer := "X"
    statusDisplay := Status.turn "X" }

/-! ## Specification vocabulary -/

/-- A line is fully matching on a board when its three cells hold the same
non-empty mark. -/
def lineMatches (board : List String) (line : Nat × Nat × Nat) : Prop :=
  ∃ m : String, m ≠ "" ∧ board[line.1]? = some m ∧ board[line.2.1]? = some m ∧
    board[line.2.2]? = some m

/-- The test the loop of `handleResultValidation` applies to one entry of the
table (lines 72 and 76): no cell is `''` and the three reads are equal. -/
def loopMatches (board : List String) (condition : Nat × Nat × Nat) : Prop :=
  ¬ (board[condition.1]? = some "" ∨ board[condition.2.1]? = some "" ∨
      board[condition.2.2]? = some "") ∧
    board[condition.1]? = board[condition.2.1]? ∧
    board[condition.2.1]? = board[condition.2.2]?

/-- Some entry of `winningConditions` is fully matching. -/
def hasWinningLine (board : List String) : Prop :=
  ∃ line ∈ winningConditions, lineMatches board line

/-- A click is accepted when it passes the guard of `handleCellClick`
(line 36): the clicked cell reads `''` and the game is active. -/
def Accepted (s : State) (i : Int) : Prop :=
  boardGet s.board i = some "" ∧ s.gameActive = true

/-- The state after a sequence of clicks. -/
def play (s : State) (clicks : List Int) : State :=
  clicks.foldl handleCellClick s

/-- Every click of the sequence is accepted in the state it is made in. -/
def LegalPlay : State → List Int → Prop
  | _, [] => True
  | s, i :: rest => Accepted s i ∧ LegalPlay (handleCellClick s i) rest

/-- The states the page can be in: the initial state, closed under cell clicks
with any integer index and under the reset button. -/
inductive Reachable : State → Prop
  | init : Reachable initialState
  | click (s : State) (i : Int) : Reachable s → Reachable (handleCellClick s i)
  | reset (s : State) : Reachable s → Reachable (handleResetGame s)

instance instDecidableLineMatches (board : List String) (line : Nat × Nat × Nat) :
    Decidable (lineMatches board line) :=
  match h : board[line.1]? with
  | none => isFalse (fun ⟨_, _, h1, _⟩ => by rw [h] at h1; cases h1)
  | some m =>
    if hm : m ≠ "" ∧ board[line.2.1]? = some m ∧ board[line.2.2]? = some m then
      isTrue ⟨m, hm.1, h, hm.2.1, hm.2.2⟩
    else
      isFalse (fun ⟨w, h0, h1, h2, h3⟩ => by
        rw [h] at h1
        cases h1
        exact hm ⟨h0, h2, h3⟩)

instance instDecidableHasWinningLine (board : List String) :
    Decidable (hasWinningLine board) := by
  unfold hasWinningLine; infer_instance

instance instDecidableAccepted (s : State) (i : Int) : Decidable (Accepted s i) := by
  unfold Accepted; infer_instance

instance instDecidableLegalPlay : (s : State) → (clicks : List Int) →
    Decidable (LegalPlay s clicks)
  | _, [] => isTrue trivial
  | s, i :: rest =>
    have := instDecidableLegalPlay (handleCellClick s i) rest
    by unfold LegalPlay; infer_instance

/-- The number of cells of the board holding the given mark. -/
def countMark (board : List String) (mark : String) : Nat :=
  board.count mark

/-- The number of marked cells of the board: the cells that are not `''`. -/
def markedCells (board : List String) : Nat :=
  board.countP (fun c => c != "")

/-- What the page reacts to: a click on a cell, carrying the parsed index, or a
click on the reset button (the two listeners of lines 171 and 173). -/
inductive Event where
  | click (i : Int)
  | reset
  deriving DecidableEq, Repr

/-- The handler run for one event. -/
def step (s : State) : Event → State
  | Event.click i => handleCellClick s i
  | Event.reset => handleResetGame s

/-- The state after a sequence of events. -/
def run (s : State) (events : List Event) : State :=
  events.foldl step s

/-- The number of accepted cell clicks since the last reset (or since the
start, when there was none), counted along a run that starts in `s` with `n`
accepted clicks already made. -/
def movesSinceReset : State → Nat → List Event → Nat
  | _, n, [] => n
  | s, n, Event.click i :: rest =>
    movesSinceReset (handleCellClick s i) (if Accepted s i then n + 1 else n) rest
  | s, _, Event.reset :: rest => movesSinceReset (handleResetGame s) 0 rest

/-- Row of a cell index in the row-major 3x3 grid. -/
def cellRow (p : Nat) : Int := ((p / 3 : Nat) : Int)

/-- Column of a cell index in the row-major 3x3 grid. -/
def cellCol (p : Nat) : Int := ((p % 3 : Nat) : Int)

/-- Three cells of the grid lie on one straight line: the vectors from the
first to the second and from the first to the third are parallel. -/
def collinear (p q r : Nat) : Prop :=
  (cellRow q - cellRow p) * (cellCol r - cellCol p) =
    (cellRow r - cellRow p) * (cellCol q - cellCol p)

instance instDecidableCollinear (p q r : Nat) : Decidable (collinear p q r) := by
  unfold collinear; infer_instance

/-- The facts about a state that hold throughout a game and are proved
together by induction over the clicks and resets: an active game has an empty
cell; a finished game has a fully matching line or a full board; the counts of
X and O cells determine whose turn it is (active) or who moved last
(finished); the draw status is shown only on a full board with no line. -/
structure GameInv (s : State) : Prop where
  hasEmpty : s.gameActive = true → "" ∈ s.board
  finished : s.gameActive = false → hasWinningLine s.board ∨ "" ∉ s.board
  countsActive : s.gameActive = true →
    (s.currentPlayer = "X" ∧ countMark s.board "X" = countMark s.board "O") ∨
    (s.currentPlayer = "O" ∧ countMark s.board "X" = countMark s.board "O" + 1)
  countsFinished : s.gameActive = false →
    (s.currentPlayer = "X" ∧ countMark s.board "X" = countMark s.board "O" + 1) ∨
    (s.currentPlayer = "O" ∧ countMark s.board "X" = countMark s.board "O")
  draw : s.statusDisplay = Status.draw →
    s.gameActive = false ∧ "" ∉ s.board ∧ ¬ hasWinningLine s.board

/-! ## Array access lemmas -/

theorem boardGet_some_iff (board : List String) (i : Int) (v : String) :
    boardGet board i = some v ↔ 0 ≤ i ∧ board[i.toNat]? = some v := by
  unfold boardGet
  by_cases h : i < 0
  · have h0 : ¬ (0 ≤ i) := by omega
    simp [h, h0]
  · have h0 : 0 ≤ i := by omega
    simp [h, h0]

theorem boardGet_natCast (board : List String) (n : Nat) :
    boardGet board (n : Int) = board[n]? := by
  simp [boardGet]

theorem boardGet_inRange (board : List String) (i : Int) (v : String)
    (h : boardGet board i = some v) : 0 ≤ i ∧ i < board.length := by
  obtain ⟨h0, h1⟩ := (boardGet_some_iff board i v).1 h
  obtain ⟨hlt, _⟩ := List.getElem?_eq_some.1 h1
  exact ⟨h0, by omega⟩

theorem length_boardSet (board : List String) (i : Int) (v : String) :
    (boardSet board i v).length = board.length := by
  unfold boardSet; split <;> simp

theorem boardSet_getElem?_ne (board : List String) (i : Int) (v : String) (j : Nat)
    (h : (j : Int) ≠ i) : (boardSet board i v)[j]? = board[j]? := by
  unfold boardSet
  split
  · rfl
  · apply List.getElem?_set_ne
    intro hij
    apply h
    omega

theorem boardGet_boardSet_self (board : List String) (i : Int) (v w : String)
    (h : boardGet board i = some w) : boardGet (boardSet board i v) i = some v := by
  obtain ⟨h0, h1⟩ := (boardGet_some_iff board i w).1 h
  obtain ⟨hlt, _⟩ := List.getElem?_eq_some.1 h1
  have hneg : ¬ i < 0 := by omega
  simp [boardGet, boardSet, hneg, List.getElem?_set_self hlt]

/-! ## The scan of the table -/

theorem winningConditions_bound :
    ∀ c ∈ winningConditions, c.1 < 9 ∧ c.2.1 < 9 ∧ c.2.2 < 9 := by
  decide

theorem scanConditions_eq_none (board : List String) (l : List (Nat × Nat × Nat)) :
    scanConditions board l = none ↔ ∀ c ∈ l, ¬ loopMatches board c := by
  induction l with
  | nil => simp [scanConditions]
  | cons c rest ih =>
    simp only [scanConditions, List.mem_cons, forall_eq_or_imp]
    split_ifs with h1 h2
    · rw [ih]
      exact ⟨fun h => ⟨fun hc => hc.1 h1, h⟩, fun h => h.2⟩
    · constructor
      · intro h; cases h
      · intro h; exact absurd ⟨h1, h2⟩ h.1
    · rw [ih]
      exact ⟨fun h => ⟨fun hc => h2 hc.2, h⟩, fun h => h.2⟩

theorem scanConditions_eq_some (board : List String) (l : List (Nat × Nat × Nat))
    (L : Nat × Nat × Nat) (h : scanConditions board l = some L) :
    ∃ pre post, l = pre ++ L :: post ∧ loopMatches board L ∧
      ∀ c ∈ pre, ¬ loopMatches board c := by
  induction l with
  | nil => simp [scanConditions] at h
  | cons c rest ih =>
    simp only [scanConditions] at h
    split_ifs at h with h1 h2
    · obtain ⟨pre, post, hl, hL, hpre⟩ := ih h
      refine ⟨c :: pre, post, by simp [hl], hL, ?_⟩
      intro d hd
      rcases List.mem_cons.1 hd with rfl | hd
      · exact fun hc => hc.1 h1
      · exact hpre d hd
    · cases h
      exact ⟨[], rest, rfl, ⟨h1, h2⟩, by simp⟩
    · obtain ⟨pre, post, hl, hL, hpre⟩ := ih h
      refine ⟨c :: pre, post, by simp [hl], hL, ?_⟩
      intro d hd
      rcases List.mem_cons.1 hd with rfl | hd
      · exact fun hc => h2 hc.2
      · exact hpre d hd

theorem loopMatches_of_lineMatches (board : List String) (c : Nat × Nat × Nat)
    (h : lineMatches board c) : loopMatches board c := by
  obtain ⟨m, hm, h1, h2, h3⟩ := h
  unfold loopMatches
  rw [h1, h2, h3]
  refine ⟨?_, rfl, rfl⟩
  simp [hm]

theorem lineMatches_of_loopMatches (board : List String) (c : Nat × Nat × Nat)
    (hc : c.1 < board.length) (h : loopMatches board c) : lineMatches board c := by
  obtain ⟨hne, hab, hbc⟩ := h
  have ha : board[c.1]? = some board[c.1] := List.getElem?_eq_getElem hc
  refine ⟨board[c.1], ?_, ha, ?_, ?_⟩
  · intro he
    exact hne (Or.inl (by rw [ha, he]))
  · rw [← hab, ha]
  · rw [← hbc, ← hab, ha]

theorem loopMatches_iff_lineMatches (board : List String) (hlen : board.length = 9)
    (c : Nat × Nat × Nat) (hc : c ∈ winningConditions) :
    loopMatches board c ↔ lineMatches board c :=
  ⟨lineMatches_of_loopMatches board c (by have := winningConditions_bound c hc; omega),
    loopMatches_of_lineMatches board c⟩

theorem winCondition_eq_none (board : List String) (hlen : board.length = 9) :
    winCondition board = none ↔ ¬ hasWinningLine board := by
  unfold winCondition hasWinningLine
  rw [scanConditions_eq_none]
  constructor
  · rintro h ⟨c, hc, hm⟩
    exact h c hc (loopMatches_of_lineMatches board c hm)
  · intro h c hc hm
    exact h ⟨c, hc, (loopMatches_iff_lineMatches board hlen c hc).1 hm⟩

theorem not_hasWinningLine_of_winCondition_none (board : List String)
    (h : winCondition board = none) : ¬ hasWinningLine board := by
  rintro ⟨c, hc, hm⟩
  exact (scanConditions_eq_none board winningConditions).1 h c hc
    (loopMatches_of_lineMatches board c hm)

theorem winCondition_eq_some (board : List String) (hlen : board.length = 9)
    (L : Nat × Nat × Nat) (h : winCondition board = some L) :
    ∃ pre post, winningConditions = pre ++ L :: post ∧ lineMatches board L ∧
      ∀ c ∈ pre, ¬ lineMatches board c := by
  obtain ⟨pre, post, hl, hL, hpre⟩ := scanConditions_eq_some board winningConditions L h
  have hmem : L ∈ winningConditions := by rw [hl]; simp
  refine ⟨pre, post, hl, (loopMatches_iff_lineMatches board hlen L hmem).1 hL, ?_⟩
  intro c hc hm
  exact hpre c hc (loopMatches_of_lineMatches board c hm)

theorem winningConditions_order :
    List.Pairwise (fun c L : Nat × Nat × Nat => c.1 ≤ L.2.2) winningConditions := by
  decide

theorem winCondition_first (board : List String) (hwin : hasWinningLine board) :
    ∃ pre W post, winningConditions = pre ++ W :: post ∧ winCondition board = some W ∧
      lineMatches board W ∧ ∀ c ∈ pre, ¬ lineMatches board c := by
  cases hw : winCondition board with
  | none => exact absurd hwin (not_hasWinningLine_of_winCondition_none board hw)
  | some W =>
    obtain ⟨pre, post, hl, hW, hpre⟩ := scanConditions_eq_some board winningConditions W hw
    refine ⟨pre, W, post, hl, rfl, ?_, ?_⟩
    · by_cases hc : W.1 < board.length
      · exact lineMatches_of_loopMatches board W hc hW
      · obtain ⟨L, hL, hm⟩ := hwin
        rw [hl] at hL
        rcases List.mem_append.1 hL with hin | hin
        · exact absurd (loopMatches_of_lineMatches board L hm) (hpre L hin)
        · rcases List.mem_cons.1 hin with rfl | hin
          · exact hm
          · have hord := winningConditions_order
            rw [hl, List.pairwise_append] at hord
            have hle := (List.pairwise_cons.1 hord.2.1).1 L hin
            obtain ⟨m, _, _, _, h3⟩ := hm
            obtain ⟨hlt, _⟩ := List.getElem?_eq_some.1 h3
            omega
    · intro c hc hm
      exact hpre c hc (loopMatches_of_lineMatches board c hm)

/-! ## Unfolding the handlers -/

theorem handleCellClick_rejected (s : State) (i : Int) (h : ¬ Accepted s i) :
    handleCellClick s i = s := by
  unfold handleCellClick
  rw [if_pos]
  by_contra hc
  apply h
  simp only [not_or, not_not, Bool.not_eq_false] at hc
  exact hc

theorem handleCellClick_accepted (s : State) (i : Int) (h : Accepted s i) :
    handleCellClick s i =
      handleResultValidation { s with board := boardSet s.board i s.currentPlayer } := by
  unfold handleCellClick
  rw [if_neg]
  rintro (hc | hc)
  · exact hc h.1
  · rw [h.2] at hc; cases hc

theorem handleResultValidation_won (s : State) (L : Nat × Nat × Nat)
    (h : winCondition s.board = some L) :
    handleResultValidation s =
      { s with gameActive := false, statusDisplay := Status.won s.currentPlayer } := by
  unfold handleResultValidation
  rw [h]

theorem handleResultValidation_draw (s : State) (h : winCondition s.board = none)
    (hfull : "" ∉ s.board) :
    handleResultValidation s = { s with gameActive := false, statusDisplay := Status.draw } := by
  unfold handleResultValidation
  rw [h]
  simp only [if_pos hfull]

theorem handleResultValidation_continue (s : State) (h : winCondition s.board = none)
    (hcell : "" ∈ s.board) : handleResultValidation s = handlePlayerChange s := by
  unfold handleResultValidation
  rw [h]
  simp only [if_neg (not_not.2 hcell)]

theorem handleResultValidation_board (s : State) :
    (handleResultValidation s).board = s.board := by
  unfold handleResultValidation
  split
  · rfl
  · split_ifs <;> rfl

theorem handleCellClick_board (s : State) (i : Int) (h : Accepted s i) :
    (handleCellClick s i).board = boardSet s.board i s.currentPlayer := by
  rw [handleCellClick_accepted s i h, handleResultValidation_board]

theorem handleCellClick_length (s : State) (i : Int) :
    (handleCellClick s i).board.length = s.board.length := by
  by_cases h : Accepted s i
  · rw [handleCellClick_board s i h, length_boardSet]
  · rw [handleCellClick_rejected s i h]

/-! ## Invariants of the reachable states -/

theorem reachable_length (s : State) (h : Reachable s) : s.board.length = 9 := by
  induction h with
  | init => rfl
  | click s i _ ih => rw [handleCellClick_length, ih]
  | reset s _ _ => rfl

theorem handleResultValidation_player (s : State)
    (h : s.currentPlayer = "X" ∨ s.currentPlayer = "O") :
    (handleResultValidation s).currentPlayer = "X" ∨
      (handleResultValidation s).currentPlayer = "O" := by
  unfold handleResultValidation
  split
  · exact h
  · split_ifs
    · unfold handlePlayerChange
      by_cases hx : s.currentPlayer = "X"
      · right; simp [hx]
      · left; simp [hx]
    · exact h

theorem reachable_player (s : State) (h : Reachable s) :
    s.currentPlayer = "X" ∨ s.currentPlayer = "O" := by
  induction h with
  | init => left; rfl
  | click s i _ ih =>
    by_cases hacc : Accepted s i
    · rw [handleCellClick_accepted s i hacc]
      exact handleResultValidation_player _ ih
    · rw [handleCellClick_rejected s i hacc]
      exact ih
  | reset s _ _ => left; rfl

theorem handleResultValidation_no_line (s : State)
    (hact : (handleResultValidation s).gameActive = true) :
    ¬ hasWinningLine (handleResultValidation s).board := by
  rw [handleResultValidation_board]
  cases hw : winCondition s.board with
  | some L =>
    rw [handleResultValidation_won s L hw] at hact
    cases hact
  | none => exact not_hasWinningLine_of_winCondition_none s.board hw

theorem reachable_no_line (s : State) (h : Reachable s) (hact : s.gameActive = true) :
    ¬ hasWinningLine s.board := by
  induction h with
  | init => decide
  | click s i _ ih =>
    by_cases hacc : Accepted s i
    · rw [handleCellClick_accepted s i hacc] at hact ⊢
      exact handleResultValidation_no_line _ hact
    · rw [handleCellClick_rejected s i hacc] at hact ⊢
      exact ih hact
  | reset s _ _ => exact (by decide : ¬ hasWinningLine initialState.board)

theorem reachable_play (s : State) (h : Reachable s) (clicks : List Int) :
    Reachable (play s clicks) := by
  induction clicks generalizing s with
  | nil => exact h
  | cons i rest ih => exact ih (handleCellClick s i) (Reachable.click s i h)

theorem play_append_singleton (s : State) (clicks : List Int) (i : Int) :
    play s (clicks ++ [i]) = handleCellClick (play s clicks) i := by
  simp [play, List.foldl_append]

theorem legalPlay_last (s : State) (clicks : List Int) (i : Int)
    (h : LegalPlay s (clicks ++ [i])) : Accepted (play s clicks) i := by
  induction clicks generalizing s with
  | nil => exact h.1
  | cons j rest ih => exact ih (handleCellClick s j) h.2

theorem first_match_unique {α : Type} (P : α → Prop) (pre preL post postL : List α)
    (W L : α) (h : pre ++ W :: post = preL ++ L :: postL) (hW : P W) (hL : P L)
    (hpre : ∀ c ∈ pre, ¬ P c) (hpreL : ∀ c ∈ preL, ¬ P c) : W = L := by
  induction pre generalizing preL with
  | nil =>
    cases preL with
    | nil => simpa using (List.cons.inj h).1
    | cons x xs =>
      have hx : W = x := (List.cons.inj h).1
      exact absurd hW (hx ▸ hpreL x (List.mem_cons_self x xs))
  | cons y ys ih =>
    cases preL with
    | nil =>
      have hy : y = L := (List.cons.inj h).1
      exact absurd hL (hy ▸ hpre y (List.mem_cons_self y ys))
    | cons x xs =>
      exact ih xs (List.cons.inj h).2
        (fun c hc => hpre c (List.mem_cons_of_mem y hc))
        (fun c hc => hpreL c (List.mem_cons_of_mem x hc))

/-! ## Claims -/

/-- Claim C1. Win check on an accepted move: in every state with an active game,
after a click on an empty cell has marked it, if some entry of
`winningConditions` has its three cells holding the same non-empty mark then
the game is over (`gameActive = false`, status "has won") and the reported
`winCondition` is the first fully matching entry in the order of the table (no
earlier entry is fully matching); nothing is assumed about the remaining empty
cells, so this includes the move that fills the last one. -/
theorem win_check_reports_first_line (s : State) (i : Int)
    (hact : s.gameActive = true) (hcell : boardGet s.board i = some "")
    (hwin : hasWinningLine (boardSet s.board i s.currentPlayer)) :
    (0 ≤ i ∧ i < s.board.length) ∧
    (handleCellClick s i).board = boardSet s.board i s.currentPlayer ∧
    (handleCellClick s i).gameActive = false ∧
    (handleCellClick s i).statusDisplay = Status.won s.currentPlayer ∧
    ∃ pre L post, winningConditions = pre ++ L :: post ∧
      winCondition (handleCellClick s i).board = some L ∧
      lineMatches (handleCellClick s i).board L ∧
      ∀ c ∈ pre, ¬ lineMatches (handleCellClick s i).board c := by
  have hacc : Accepted s i := ⟨hcell, hact⟩
  have hb := handleCellClick_board s i hacc
  obtain ⟨pre, L, post, hl, hw, hL, hpre⟩ := winCondition_first _ hwin
  have hs := handleResultValidation_won
    { s with board := boardSet s.board i s.currentPlayer } L hw
  rw [← handleCellClick_accepted s i hacc] at hs
  refine ⟨boardGet_inRange s.board i "" hcell, hb, by rw [hs], by rw [hs],
    pre, L, post, hl, ?_, ?_, ?_⟩
  · rw [hb]; exact hw
  · rw [hb]; exact hL
  · rw [hb]; exact hpre

theorem win_check_reports_first_line_witness :
    (play initialState [0, 3, 1, 4, 5, 7, 6, 8]).gameActive = true ∧
    boardGet (play initialState [0, 3, 1, 4, 5, 7, 6, 8]).board 2 = some "" ∧
    "" ∉ boardSet (play initialState [0, 3, 1, 4, 5, 7, 6, 8]).board 2 "X" ∧
    (handleCellClick (play initialState [0, 3, 1, 4, 5, 7, 6, 8]) 2).gameActive = false ∧
    ∃ pre L post, winningConditions = pre ++ L :: post ∧
      winCondition (handleCellClick (play initialState [0, 3, 1, 4, 5, 7, 6, 8]) 2).board
        = some L ∧
      lineMatches (handleCellClick (play initialState [0, 3, 1, 4, 5, 7, 6, 8]) 2).board L ∧
      ∀ c ∈ pre,
        ¬ lineMatches (handleCellClick (play initialState [0, 3, 1, 4, 5, 7, 6, 8]) 2).board c :=
  have h := win_check_reports_first_line (play initialState [0, 3, 1, 4, 5, 7, 6, 8]) 2
    (by decide) (by decide) (by decide)
  ⟨by decide, by decide, by decide, h.2.2.1, h.2.2.2.2⟩

/-- Claim C2. Occupied-cell rejection: in every state, active or not, a click
on a cell that already holds X or O returns at the guard and leaves the whole
state (board, currentPlayer, gameActive, status line) unchanged; and a second
click on the same index right after a first one changes nothing (the current
player being a non-empty mark, as X and O are). -/
theorem occupied_cell_rejected (s : State) (i : Int) :
    ((boardGet s.board i = some "X" ∨ boardGet s.board i = some "O") →
      handleCellClick s i = s) ∧
    (s.currentPlayer ≠ "" →
      handleCellClick (handleCellClick s i) i = handleCellClick s i) := by
  constructor
  · intro h
    apply handleCellClick_rejected
    rintro ⟨hc, _⟩
    rcases h with h | h <;> rw [h] at hc <;> exact absurd hc (by decide)
  · intro hp
    by_cases hacc : Accepted s i
    · apply handleCellClick_rejected
      rintro ⟨hc, _⟩
      rw [handleCellClick_board s i hacc,
        boardGet_boardSet_self s.board i s.currentPlayer "" hacc.1] at hc
      exact hp (Option.some.inj hc)
    · rw [handleCellClick_rejected s i hacc, handleCellClick_rejected s i hacc]

theorem occupied_cell_rejected_witness :
    handleCellClick (play initialState [4, 0]) 4 = play initialState [4, 0] ∧
    handleCellClick (play initialState [4, 0]) 0 = play initialState [4, 0] ∧
    handleCellClick (handleCellClick initialState 0) 0 = handleCellClick initialState 0 :=
  ⟨(occupied_cell_rejected (play initialState [4, 0]) 4).1 (by decide),
   (occupied_cell_rejected (play initialState [4, 0]) 0).1 (by decide),
   (occupied_cell_rejected initialState 0).2 (by decide)⟩

/-- Claim C3. A finished game is immutable until reset: when `gameActive` is
false, a click with any integer index (empty cell, occupied cell or outside the
board) leaves the whole state unchanged, and so does any sequence of clicks. -/
theorem finished_game_immutable (s : State) (h : s.gameActive = false) :
    (∀ i : Int, handleCellClick s i = s) ∧
    ∀ clicks : List Int, play s clicks = s := by
  have h1 : ∀ i : Int, handleCellClick s i = s := by
    intro i
    apply handleCellClick_rejected
    rintro ⟨_, hc⟩
    rw [h] at hc
    cases hc
  refine ⟨h1, ?_⟩
  intro clicks
  induction clicks with
  | nil => rfl
  | cons i rest ih =>
    unfold play at ih ⊢
    rw [List.foldl_cons, h1 i]
    exact ih

theorem finished_game_immutable_witness :
    (play initialState [0, 3, 1, 4, 2]).gameActive = false ∧
    handleCellClick (play initialState [0, 3, 1, 4, 2]) 5 = play initialState [0, 3, 1, 4, 2] ∧
    play (play initialState [0, 3, 1, 4, 2]) [5, 0, 9, -1, 8] =
      play initialState [0, 3, 1, 4, 2] :=
  ⟨by decide,
   (finished_game_immutable (play initialState [0, 3, 1, 4, 2]) (by decide)).1 5,
   (finished_game_immutable (play initialState [0, 3, 1, 4, 2]) (by decide)).2 [5, 0, 9, -1, 8]⟩

/-- Claim C4. Out-of-range rejection: on a board of exactly nine cells a click
with an integer index below 0 or above 8 leaves the whole state unchanged
(board and its length, currentPlayer, gameActive), because the read
`board[i]` is `undefined`, which is not `''`. -/
theorem out_of_range_rejected (s : State) (i : Int) (hlen : s.board.length = 9)
    (hi : i < 0 ∨ 8 < i) : handleCellClick s i = s := by
  apply handleCellClick_rejected
  rintro ⟨hc, _⟩
  have := boardGet_inRange s.board i "" hc
  omega

theorem out_of_range_rejected_witness :
    handleCellClick initialState 9 = initialState ∧
    handleCellClick initialState (-1) = initialState :=
  ⟨out_of_range_rejected initialState 9 (by decide) (by decide),
   out_of_range_rejected initialState (-1) (by decide) (by decide)⟩

/-- Claim C5. Reset restores the initial state exactly: whatever the prior
state, after `handleResetGame` the board is nine empty cells, currentPlayer is
X and gameActive is true, which is the state the script starts in; so reset is
idempotent and its result does not depend on the prior state. -/
theorem reset_restores_initial_state (s t : State) :
    handleResetGame s = initialState ∧
    (handleResetGame s).board = ["", "", "", "", "", "", "", "", ""] ∧
    (handleResetGame s).currentPlayer = "X" ∧
    (handleResetGame s).gameActive = true ∧
    handleResetGame (handleResetGame s) = handleResetGame s ∧
    handleResetGame s = handleResetGame t :=
  ⟨rfl, rfl, rfl, rfl, rfl, rfl⟩

/-- Claim C6. Draw detection: for every accepted move on a nine-cell board, if
after marking the cell no winning line is fully matching and no empty cell
remains, the game ends Drawn (gameActive false, status "draw", no line
reported, currentPlayer not switched); conversely the status becomes "draw"
only when the board is full and no line matches.  The moves
[0,1,2,4,3,5,7,6,8] from the initial state are all accepted, the game is
still active after each of the first eight, and the ninth ends it Drawn. -/
theorem draw_detection :
    (∀ (s : State) (i : Int), s.board.length = 9 → Accepted s i →
      ((¬ hasWinningLine (boardSet s.board i s.currentPlayer) ∧
          "" ∉ boardSet s.board i s.currentPlayer) →
        handleCellClick s i =
          { board := boardSet s.board i s.currentPlayer
            currentPlayer := s.currentPlayer
            gameActive := false
            statusDisplay := Status.draw } ∧
        winCondition (handleCellClick s i).board = none) ∧
      ((handleCellClick s i).statusDisplay = Status.draw →
        ¬ hasWinningLine (handleCellClick s i).board ∧
          "" ∉ (handleCellClick s i).board)) ∧
    (LegalPlay initialState [0, 1, 2, 4, 3, 5, 7, 6, 8] ∧
      (∀ k < 9, (play initialState (List.take k [0, 1, 2, 4, 3, 5, 7, 6, 8])).gameActive
        = true) ∧
      (play initialState [0, 1, 2, 4, 3, 5, 7, 6, 8]).gameActive = false ∧
      (play initialState [0, 1, 2, 4, 3, 5, 7, 6, 8]).statusDisplay = Status.draw ∧
      winCondition (play initialState [0, 1, 2, 4, 3, 5, 7, 6, 8]).board = none) := by
  refine ⟨?_, by decide⟩
  intro s i hlen hacc
  have hlen2 : (boardSet s.board i s.currentPlayer).length = 9 := by
    rw [length_boardSet, hlen]
  have hb := handleCellClick_board s i hacc
  constructor
  · rintro ⟨hno, hfull⟩
    have hw := (winCondition_eq_none _ hlen2).2 hno
    have hs := handleResultValidation_draw
      { s with board := boardSet s.board i s.currentPlayer } hw hfull
    rw [← handleCellClick_accepted s i hacc] at hs
    exact ⟨hs, by rw [hb]; exact hw⟩
  · intro hd
    rw [hb]
    cases hw : winCondition (boardSet s.board i s.currentPlayer) with
    | some L =>
      have hs := handleResultValidation_won
        { s with board := boardSet s.board i s.currentPlayer } L hw
      rw [← handleCellClick_accepted s i hacc] at hs
      rw [hs] at hd
      cases hd
    | none =>
      refine ⟨not_hasWinningLine_of_winCondition_none _ hw, ?_⟩
      intro hcell
      have hs := handleResultValidation_continue
        { s with board := boardSet s.board i s.currentPlayer } hw hcell
      rw [← handleCellClick_accepted s i hacc] at hs
      rw [hs] at hd
      cases hd

theorem draw_detection_witness :
    (play initialState [0, 1, 2, 4, 3, 5, 7, 6]).board.length = 9 ∧
    Accepted (play initialState [0, 1, 2, 4, 3, 5, 7, 6]) 8 ∧
    handleCellClick (play initialState [0, 1, 2, 4, 3, 5, 7, 6]) 8 =
      { board := ["X", "O", "X", "X", "O", "O", "O", "X", "X"]
        currentPlayer := "X"
        gameActive := false
        statusDisplay := Status.draw } ∧
    (¬ hasWinningLine (handleCellClick (play initialState [0, 1, 2, 4, 3, 5, 7, 6]) 8).board ∧
      "" ∉ (handleCellClick (play initialState [0, 1, 2, 4, 3, 5, 7, 6]) 8).board) :=
  ⟨by decide, by decide,
   ((draw_detection.1 (play initialState [0, 1, 2, 4, 3, 5, 7, 6]) 8 (by decide)
      (by decide)).1 (by decide)).1,
   (draw_detection.1 (play initialState [0, 1, 2, 4, 3, 5, 7, 6]) 8 (by decide)
      (by decide)).2 (by decide)⟩

/-- Claim C7. Turn alternation: the initial state has currentPlayer X; in every
state reached from it the current player is X or O; an accepted move that
neither wins nor draws flips currentPlayer (X to O, O to X) and keeps the game
active; an accepted move that wins or draws leaves currentPlayer as the player
who made it and ends the game; a rejected click does not change it. -/
theorem turn_alternation (s : State) (hr : Reachable s) (i : Int) :
    initialState.currentPlayer = "X" ∧
    (s.currentPlayer = "X" ∨ s.currentPlayer = "O") ∧
    (Accepted s i → ¬ hasWinningLine (boardSet s.board i s.currentPlayer) →
      "" ∈ boardSet s.board i s.currentPlayer →
        (handleCellClick s i).gameActive = true ∧
        (s.currentPlayer = "X" → (handleCellClick s i).currentPlayer = "O") ∧
        (s.currentPlayer = "O" → (handleCellClick s i).currentPlayer = "X")) ∧
    (Accepted s i →
      (hasWinningLine (boardSet s.board i s.currentPlayer) ∨
        (¬ hasWinningLine (boardSet s.board i s.currentPlayer) ∧
          "" ∉ boardSet s.board i s.currentPlayer)) →
        (handleCellClick s i).currentPlayer = s.currentPlayer ∧
        (handleCellClick s i).gameActive = false) ∧
    (¬ Accepted s i → (handleCellClick s i).currentPlayer = s.currentPlayer) := by
  have hlen2 : (boardSet s.board i s.currentPlayer).length = 9 := by
    rw [length_boardSet, reachable_length s hr]
  refine ⟨rfl, reachable_player s hr, ?_, ?_, ?_⟩
  · intro hacc hno hcell
    have hw := (winCondition_eq_none _ hlen2).2 hno
    have hs := handleResultValidation_continue
      { s with board := boardSet s.board i s.currentPlayer } hw hcell
    rw [← handleCellClick_accepted s i hacc] at hs
    rw [hs]
    refine ⟨hacc.2, ?_, ?_⟩
    · intro hx
      simp [handlePlayerChange, hx]
    · intro ho
      simp [handlePlayerChange, ho]
  · intro hacc hend
    cases hw : winCondition (boardSet s.board i s.currentPlayer) with
    | some L =>
      have hs := handleResultValidation_won
        { s with board := boardSet s.board i s.currentPlayer } L hw
      rw [← handleCellClick_accepted s i hacc] at hs
      rw [hs]
      exact ⟨rfl, rfl⟩
    | none =>
      have hno := (winCondition_eq_none _ hlen2).1 hw
      rcases hend with hwin | ⟨_, hfull⟩
      · exact absurd hwin hno
      · have hs := handleResultValidation_draw
          { s with board := boardSet s.board i s.currentPlayer } hw hfull
        rw [← handleCellClick_accepted s i hacc] at hs
        rw [hs]
        exact ⟨rfl, rfl⟩
  · intro hrej
    rw [handleCellClick_rejected s i hrej]

theorem turn_alternation_witness :
    Reachable (play initialState [0]) ∧ Accepted (play initialState [0]) 3 ∧
    (handleCellClick (play initialState [0]) 3).gameActive = true ∧
    (handleCellClick (play initialState [0]) 3).currentPlayer = "X" ∧
    Reachable (play initialState [0, 3, 1, 4]) ∧ Accepted (play initialState [0, 3, 1, 4]) 2 ∧
    (handleCellClick (play initialState [0, 3, 1, 4]) 2).currentPlayer = "X" ∧
    (handleCellClick (play initialState [0, 3, 1, 4]) 2).gameActive = false ∧
    ¬ Accepted (play initialState [0]) 0 ∧
    (handleCellClick (play initialState [0]) 0).currentPlayer = "O" :=
  have h1 := turn_alternation (play initialState [0])
    (reachable_play initialState Reachable.init [0]) 3
  have h2 := turn_alternation (play initialState [0, 3, 1, 4])
    (reachable_play initialState Reachable.init [0, 3, 1, 4]) 2
  have h3 := turn_alternation (play initialState [0])
    (reachable_play initialState Reachable.init [0]) 0
  ⟨reachable_play initialState Reachable.init [0], by decide,
   (h1.2.2.1 (by decide) (by decide) (by decide)).1,
   (h1.2.2.1 (by decide) (by decide) (by decide)).2.2 (by decide),
   reachable_play initialState Reachable.init [0, 3, 1, 4], by decide,
   (h2.2.2.2.1 (by decide) (Or.inl (by decide))).1,
   (h2.2.2.2.1 (by decide) (Or.inl (by decide))).2,
   by decide,
   h3.2.2.2.2 (by decide)⟩

/-- Claim C8, as stated, fails: the legal alternating game
[1,4,2,5,3,7,6,8,0] ends with X marking cell 0, which makes the three cells
of the left column (0,3,6) hold X (they did not before the move); the game is
Won for X, but the reported line is the top row (0,1,2), completed by the same
move and earlier in the table, not (0,3,6). -/
theorem completed_line_reported_counterexample :
    (0, 3, 6) ∈ winningConditions ∧
    LegalPlay initialState [1, 4, 2, 5, 3, 7, 6, 8, 0] ∧
    ¬ lineMatches (play initialState [1, 4, 2, 5, 3, 7, 6, 8]).board (0, 3, 6) ∧
    lineMatches (play initialState [1, 4, 2, 5, 3, 7, 6, 8, 0]).board (0, 3, 6) ∧
    (play initialState [1, 4, 2, 5, 3, 7, 6, 8, 0]).board =
      ["X", "X", "X", "X", "O", "O", "X", "O", "O"] ∧
    (play initialState [1, 4, 2, 5, 3, 7, 6, 8, 0]).statusDisplay = Status.won "X" ∧
    winCondition (play initialState [1, 4, 2, 5, 3, 7, 6, 8, 0]).board = some (0, 1, 2) ∧
    winCondition (play initialState [1, 4, 2, 5, 3, 7, 6, 8, 0]).board ≠ some (0, 3, 6) := by
  decide

/-- Claim C8, amended. For every winning line L and every sequence of legal
alternating moves from the initial state whose last move leaves the three
cells of L holding the same mark, the game is Won for the player who made that
move, and the reported line is the first fully matching entry of
`winningConditions` in table order; it is L whenever no entry before L in the
table is fully matching, in particular whenever L is the only fully matching
line. -/
theorem completed_line_reported (L : Nat × Nat × Nat) (hL : L ∈ winningConditions)
    (clicks : List Int) (i : Int) (hlegal : LegalPlay initialState (clicks ++ [i]))
    (hm : lineMatches (play initialState (clicks ++ [i])).board L) :
    (play initialState (clicks ++ [i])).gameActive = false ∧
    (play initialState (clicks ++ [i])).statusDisplay =
      Status.won (play initialState clicks).currentPlayer ∧
    (play initialState (clicks ++ [i])).currentPlayer =
      (play initialState clicks).currentPlayer ∧
    boardGet (play initialState (clicks ++ [i])).board i =
      some (play initialState clicks).currentPlayer ∧
    ∃ pre W post, winningConditions = pre ++ W :: post ∧
      winCondition (play initialState (clicks ++ [i])).board = some W ∧
      lineMatches (play initialState (clicks ++ [i])).board W ∧
      (∀ c ∈ pre, ¬ lineMatches (play initialState (clicks ++ [i])).board c) ∧
      ((∀ preL postL, winningConditions = preL ++ L :: postL →
          ∀ c ∈ preL, ¬ lineMatches (play initialState (clicks ++ [i])).board c) → W = L) ∧
      ((∀ c ∈ winningConditions,
          lineMatches (play initialState (clicks ++ [i])).board c → c = L) → W = L) := by
  have hacc := legalPlay_last initialState clicks i hlegal
  have hr := reachable_play initialState Reachable.init clicks
  rw [play_append_singleton] at hm ⊢
  generalize play initialState clicks = s at hacc hr hm ⊢
  have hb := handleCellClick_board s i hacc
  have hlen2 : (handleCellClick s i).board.length = 9 := by
    rw [handleCellClick_length, reachable_length s hr]
  cases hw : winCondition (handleCellClick s i).board with
  | none => exact absurd ⟨L, hL, hm⟩ ((winCondition_eq_none _ hlen2).1 hw)
  | some W =>
    obtain ⟨pre, post, hl, hW, hpre⟩ := winCondition_eq_some _ hlen2 W hw
    have hs := handleResultValidation_won
      { s with board := boardSet s.board i s.currentPlayer } W (by rw [← hb]; exact hw)
    rw [← handleCellClick_accepted s i hacc] at hs
    refine ⟨by rw [hs], by rw [hs], by rw [hs], ?_, pre, W, post, hl, rfl, hW, hpre, ?_, ?_⟩
    · rw [hb]
      exact boardGet_boardSet_self s.board i s.currentPlayer "" hacc.1
    · intro hfirst
      obtain ⟨preL, postL, hL2⟩ := List.append_of_mem hL
      exact first_match_unique (lineMatches (handleCellClick s i).board) pre preL post postL
        W L (by rw [← hl, ← hL2]) hW hm hpre (hfirst preL postL hL2)
    · intro honly
      exact honly W (by rw [hl]; simp) hW

theorem completed_line_reported_witness :
    (0, 1, 2) ∈ winningConditions ∧
    LegalPlay initialState ([0, 3, 1, 4] ++ [2]) ∧
    lineMatches (play initialState ([0, 3, 1, 4] ++ [2])).board (0, 1, 2) ∧
    (play initialState ([0, 3, 1, 4] ++ [2])).gameActive = false ∧
    (play initialState ([0, 3, 1, 4] ++ [2])).statusDisplay = Status.won "X" ∧
    boardGet (play initialState ([0, 3, 1, 4] ++ [2])).board 2 = some "X" ∧
    winCondition (play initialState ([0, 3, 1, 4] ++ [2])).board = some (0, 1, 2) :=
  have h := completed_line_reported (0, 1, 2) (by decide) [0, 3, 1, 4] 2 (by decide)
    (by decide)
  ⟨by decide, by decide, by decide, h.1, h.2.1, h.2.2.2.1, by decide⟩

/-- Claim C9. Frame of a move: for every state, every clicked index i and every
board index j other than i, the cell at j after `handleCellClick` is the cell
at j before it, whether the click is accepted or rejected, and the board keeps
its length; on an accepted click cell i goes from empty to the mark of the
player who was current before the move, and on a rejected click the board is
unchanged. -/
theorem click_frame (s : State) (i : Int) (j : Nat) :
    ((j : Int) ≠ i → (handleCellClick s i).board[j]? = s.board[j]?) ∧
    (handleCellClick s i).board.length = s.board.length ∧
    (Accepted s i →
      boardGet s.board i = some "" ∧
      boardGet (handleCellClick s i).board i = some s.currentPlayer) ∧
    (¬ Accepted s i → (handleCellClick s i).board = s.board) := by
  refine ⟨?_, handleCellClick_length s i, ?_, ?_⟩
  · intro hj
    by_cases hacc : Accepted s i
    · rw [handleCellClick_board s i hacc]
      exact boardSet_getElem?_ne s.board i s.currentPlayer j hj
    · rw [handleCellClick_rejected s i hacc]
  · intro hacc
    refine ⟨hacc.1, ?_⟩
    rw [handleCellClick_board s i hacc]
    exact boardGet_boardSet_self s.board i s.currentPlayer "" hacc.1
  · intro hrej
    rw [handleCellClick_rejected s i hrej]

theorem click_frame_witness :
    (handleCellClick (play initialState [0, 4]) 8).board[4]? =
      (play initialState [0, 4]).board[4]? ∧
    (handleCellClick (play initialState [0, 4]) 4).board[0]? =
      (play initialState [0, 4]).board[0]? ∧
    Accepted (play initialState [0, 4]) 8 ∧
    boardGet (handleCellClick (play initialState [0, 4]) 8).board 8 = some "X" ∧
    ¬ Accepted (play initialState [0, 4]) 4 ∧
    (handleCellClick (play initialState [0, 4]) 4).board = (play initialState [0, 4]).board :=
  ⟨(click_frame (play initialState [0, 4]) 8 4).1 (by decide),
   (click_frame (play initialState [0, 4]) 4 0).1 (by decide),
   by decide,
   ((click_frame (play initialState [0, 4]) 8 0).2.2.1 (by decide)).2,
   by decide,
   (click_frame (play initialState [0, 4]) 4 0).2.2.2 (by decide)⟩

/-- Claim C10. The announced winner owns the line: in every state reachable
from the initial state by cell clicks and resets, when an accepted click makes
`handleResultValidation` find a line, the three cells of that line hold the
mark of currentPlayer, the clicked cell is one of them, currentPlayer is not
switched, and the status names that player as the winner: the player who made
the last move. -/
theorem winner_owns_line (s : State) (hr : Reachable s) (i : Int) (hacc : Accepted s i)
    (L : Nat × Nat × Nat) (hL : winCondition (handleCellClick s i).board = some L) :
    (handleCellClick s i).board[L.1]? = some (handleCellClick s i).currentPlayer ∧
    (handleCellClick s i).board[L.2.1]? = some (handleCellClick s i).currentPlayer ∧
    (handleCellClick s i).board[L.2.2]? = some (handleCellClick s i).currentPlayer ∧
    (i = L.1 ∨ i = L.2.1 ∨ i = L.2.2) ∧
    (handleCellClick s i).currentPlayer = s.currentPlayer ∧
    (s.currentPlayer = "X" ∨ s.currentPlayer = "O") ∧
    (handleCellClick s i).statusDisplay = Status.won (handleCellClick s i).currentPlayer ∧
    (handleCellClick s i).gameActive = false := by
  have hb := handleCellClick_board s i hacc
  have hlen2 : (handleCellClick s i).board.length = 9 := by
    rw [handleCellClick_length, reachable_length s hr]
  have hs := handleResultValidation_won
    { s with board := boardSet s.board i s.currentPlayer } L (by rw [← hb]; exact hL)
  rw [← handleCellClick_accepted s i hacc] at hs
  have hcp : (handleCellClick s i).currentPlayer = s.currentPlayer := by rw [hs]
  obtain ⟨pre, post, hl, ⟨m, hm0, h1, h2, h3⟩, _⟩ := winCondition_eq_some _ hlen2 L hL
  have hmem : L ∈ winningConditions := by rw [hl]; simp
  have hself : boardGet (handleCellClick s i).board i = some s.currentPlayer := by
    rw [hb]
    exact boardGet_boardSet_self s.board i s.currentPlayer "" hacc.1
  have hin : i = L.1 ∨ i = L.2.1 ∨ i = L.2.2 := by
    by_contra hout
    simp only [not_or] at hout
    obtain ⟨o1, o2, o3⟩ := hout
    apply reachable_no_line s hr hacc.2
    refine ⟨L, hmem, m, hm0, ?_, ?_, ?_⟩
    · rw [← h1, hb]
      exact (boardSet_getElem?_ne s.board i s.currentPlayer L.1 (fun h => o1 h.symm)).symm
    · rw [← h2, hb]
      exact (boardSet_getElem?_ne s.board i s.currentPlayer L.2.1 (fun h => o2 h.symm)).symm
    · rw [← h3, hb]
      exact (boardSet_getElem?_ne s.board i s.currentPlayer L.2.2 (fun h => o3 h.symm)).symm
  have hmark : m = s.currentPlayer := by
    rcases hin with h | h | h
    · have h4 : (handleCellClick s i).board[L.1]? = some s.currentPlayer := by
        rw [← boardGet_natCast, ← h]; exact hself
      rw [h1] at h4
      exact Option.some.inj h4
    · have h4 : (handleCellClick s i).board[L.2.1]? = some s.currentPlayer := by
        rw [← boardGet_natCast, ← h]; exact hself
      rw [h2] at h4
      exact Option.some.inj h4
    · have h4 : (handleCellClick s i).board[L.2.2]? = some s.currentPlayer := by
        rw [← boardGet_natCast, ← h]; exact hself
      rw [h3] at h4
      exact Option.some.inj h4
  rw [hcp, ← hmark]
  refine ⟨h1, h2, h3, hin, rfl, ?_, ?_, ?_⟩
  · rw [hmark]; exact reachable_player s hr
  · rw [hs, hmark]
  · rw [hs]

theorem winner_owns_line_witness :
    Reachable (play initialState [4, 0, 1, 3, 8]) ∧
    Accepted (play initialState [4, 0, 1, 3, 8]) 6 ∧
    winCondition (handleCellClick (play initialState [4, 0, 1, 3, 8]) 6).board =
      some (0, 3, 6) ∧
    (handleCellClick (play initialState [4, 0, 1, 3, 8]) 6).board[0]? = some "O" ∧
    (handleCellClick (play initialState [4, 0, 1, 3, 8]) 6).currentPlayer = "O" ∧
    (handleCellClick (play initialState [4, 0, 1, 3, 8]) 6).statusDisplay =
      Status.won "O" :=
  have h := winner_owns_line (play initialState [4, 0, 1, 3, 8])
    (reachable_play initialState Reachable.init [4, 0, 1, 3, 8]) 6 (by decide)
    (0, 3, 6) (by decide)
  ⟨reachable_play initialState Reachable.init [4, 0, 1, 3, 8], by decide, by decide,
   h.1, h.2.2.2.2.1, h.2.2.2.2.2.2.1⟩

/-! ## Persistence of marks -/

theorem handleCellClick_keeps_mark (s : State) (i : Int) (j : Nat) (m : String)
    (hm : m ≠ "") (h : s.board[j]? = some m) : (handleCellClick s i).board[j]? = some m := by
  by_cases hacc : Accepted s i
  · rw [handleCellClick_board s i hacc]
    by_cases hj : (j : Int) = i
    · have hc := hacc.1
      rw [← hj, boardGet_natCast, h] at hc
      exact absurd (Option.some.inj hc) hm
    · rw [boardSet_getElem?_ne s.board i s.currentPlayer j hj]
      exact h
  · rw [handleCellClick_rejected s i hacc]
    exact h

theorem play_keeps_mark (s : State) (clicks : List Int) (j : Nat) (m : String)
    (hm : m ≠ "") (h : s.board[j]? = some m) : (play s clicks).board[j]? = some m := by
  induction clicks generalizing s with
  | nil => exact h
  | cons i rest ih => exact ih (handleCellClick s i) (handleCellClick_keeps_mark s i j m hm h)

theorem play_length (s : State) (clicks : List Int) :
    (play s clicks).board.length = s.board.length := by
  induction clicks generalizing s with
  | nil => rfl
  | cons i rest ih =>
    have h := ih (handleCellClick s i)
    rw [handleCellClick_length] at h
    exact h

theorem play_append (s : State) (before after : List Int) :
    play s (before ++ after) = play (play s before) after := by
  simp [play, List.foldl_append]

theorem reachable_cells (s : State) (h : Reachable s) :
    ∀ c ∈ s.board, c = "" ∨ c = "X" ∨ c = "O" := by
  induction h with
  | init => decide
  | click s i hr ih =>
    by_cases hacc : Accepted s i
    · rw [handleCellClick_board s i hacc]
      intro c hc
      unfold boardSet at hc
      split at hc
      · exact ih c hc
      · rcases List.mem_or_eq_of_mem_set hc with hc | hc
        · exact ih c hc
        · right
          rw [hc]
          exact reachable_player s hr
    · rw [handleCellClick_rejected s i hacc]
      exact ih
  | reset s _ _ => exact (by decide : ∀ c ∈ initialState.board, c = "" ∨ c = "X" ∨ c = "O")

theorem line_through_click (s : State) (i : Int) (hno : ¬ hasWinningLine s.board)
    (L : Nat × Nat × Nat) (hL : L ∈ winningConditions)
    (hm : lineMatches (boardSet s.board i s.currentPlayer) L) :
    i = L.1 ∨ i = L.2.1 ∨ i = L.2.2 := by
  by_contra hout
  simp only [not_or] at hout
  obtain ⟨o1, o2, o3⟩ := hout
  obtain ⟨m, hm0, h1, h2, h3⟩ := hm
  apply hno
  refine ⟨L, hL, m, hm0, ?_, ?_, ?_⟩
  · rw [← h1]
    exact (boardSet_getElem?_ne s.board i s.currentPlayer L.1 (fun h => o1 h.symm)).symm
  · rw [← h2]
    exact (boardSet_getElem?_ne s.board i s.currentPlayer L.2.1 (fun h => o2 h.symm)).symm
  · rw [← h3]
    exact (boardSet_getElem?_ne s.board i s.currentPlayer L.2.2 (fun h => o3 h.symm)).symm

/-- Claim C11. Marks never revert without a reset: for every state and every
sequence of cell clicks, a cell that holds a mark (X or O, or any non-empty
value) at some point of the sequence holds the same mark at every later point;
a click changes a cell only from empty to the mark of the current player, and
a cell that has changed does not change again. -/
theorem marks_never_revert (s : State) (j : Nat) :
    (∀ (before after : List Int) (m : String), m ≠ "" →
      (play s before).board[j]? = some m →
      (play s (before ++ after)).board[j]? = some m) ∧
    (∀ i : Int, (handleCellClick s i).board[j]? ≠ s.board[j]? →
      s.board[j]? = some "" ∧ (handleCellClick s i).board[j]? = some s.currentPlayer) ∧
    (∀ before after : List Int, (play s before).board[j]? ≠ s.board[j]? →
      (play s (before ++ after)).board[j]? = (play s before).board[j]?) := by
  refine ⟨?_, ?_, ?_⟩
  · intro before after m hm h
    rw [play_append]
    exact play_keeps_mark (play s before) after j m hm h
  · intro i hne
    by_cases hacc : Accepted s i
    · by_cases hj : (j : Int) = i
      · have hc := hacc.1
        rw [← hj, boardGet_natCast] at hc
        refine ⟨hc, ?_⟩
        rw [handleCellClick_board s i hacc, ← boardGet_natCast, hj]
        exact boardGet_boardSet_self s.board i s.currentPlayer "" hacc.1
      · exfalso
        apply hne
        rw [handleCellClick_board s i hacc]
        exact boardSet_getElem?_ne s.board i s.currentPlayer j hj
    · exfalso
      apply hne
      rw [handleCellClick_rejected s i hacc]
  · intro before after hne
    rw [play_append]
    have hlen := play_length s before
    cases hb : (play s before).board[j]? with
    | none =>
      have h1 : (play s before).board.length ≤ j := List.getElem?_eq_none_iff.1 hb
      apply List.getElem?_eq_none
      rw [play_length]
      exact h1
    | some m =>
      by_cases hm : m = ""
      · exfalso
        apply hne
        rw [hb, hm]
        cases ha : s.board[j]? with
        | none =>
          have h1 : s.board.length ≤ j := List.getElem?_eq_none_iff.1 ha
          have h2 : (play s before).board[j]? = none :=
            List.getElem?_eq_none (by rw [hlen]; exact h1)
          rw [hb] at h2
          cases h2
        | some a =>
          by_cases ha0 : a = ""
          · rw [ha0]
          · have h2 := play_keeps_mark s before j a ha0 ha
            rw [hb, hm] at h2
            exact absurd (Option.some.inj h2).symm ha0
      · exact play_keeps_mark (play s before) after j m hm hb

theorem marks_never_revert_witness :
    (play initialState ([0, 4] ++ [4, 0, 8, 2])).board[4]? = some "O" ∧
    ((handleCellClick initialState 3).board[3]? ≠ initialState.board[3]? ∧
      initialState.board[3]? = some "" ∧
      (handleCellClick initialState 3).board[3]? = some "X") ∧
    (play initialState ([0, 4] ++ [0, 0, 7])).board[0]? =
      (play initialState [0, 4]).board[0]? :=
  ⟨(marks_never_revert initialState 4).1 [0, 4] [4, 0, 8, 2] "O" (by decide) (by decide),
   ⟨by decide, (marks_never_revert initialState 3).2.1 3 (by decide)⟩,
   (marks_never_revert initialState 0).2.2 [0, 4] [0, 0, 7] (by decide)⟩

/-- Claim C12. Board shape invariant: in every state reachable from the initial
state by resets and cell clicks with arbitrary integer indices, the board has
exactly 9 cells and each cell is empty, X or O; a further click with any
integer index neither lengthens the board nor stores any other value. -/
theorem board_shape_invariant (s : State) (hr : Reachable s) :
    s.board.length = 9 ∧
    (∀ c ∈ s.board, c = "" ∨ c = "X" ∨ c = "O") ∧
    (s.currentPlayer = "X" ∨ s.currentPlayer = "O") ∧
    ∀ i : Int, (handleCellClick s i).board.length = 9 ∧
      ∀ c ∈ (handleCellClick s i).board, c = "" ∨ c = "X" ∨ c = "O" :=
  ⟨reachable_length s hr, reachable_cells s hr, reachable_player s hr, fun i =>
    ⟨reachable_length _ (Reachable.click s i hr), reachable_cells _ (Reachable.click s i hr)⟩⟩

theorem board_shape_invariant_witness :
    Reachable (play initialState [0, 9, -1, 4, 100, 0]) ∧
    (play initialState [0, 9, -1, 4, 100, 0]).board.length = 9 ∧
    (handleCellClick (play initialState [0, 9, -1, 4, 100, 0]) 12).board.length = 9 :=
  have h := board_shape_invariant (play initialState [0, 9, -1, 4, 100, 0])
    (reachable_play initialState Reachable.init [0, 9, -1, 4, 100, 0])
  ⟨reachable_play initialState Reachable.init [0, 9, -1, 4, 100, 0], h.1, (h.2.2.2 12).1⟩

/-- Claim C13. Completed lines pass through the last move: in every state
reached from the initial state by cell clicks and resets, no winning line is
fully matching while the game is active, and after an accepted move every
winning line whose three cells hold the same non-empty mark contains the index
just marked. -/
theorem completed_lines_pass_through_last_move (s : State) (hr : Reachable s) (i : Int) :
    (s.gameActive = true → ¬ hasWinningLine s.board) ∧
    (Accepted s i → ∀ L ∈ winningConditions,
      lineMatches (handleCellClick s i).board L → i = L.1 ∨ i = L.2.1 ∨ i = L.2.2) := by
  refine ⟨reachable_no_line s hr, ?_⟩
  intro hacc L hL hm
  rw [handleCellClick_board s i hacc] at hm
  exact line_through_click s i (reachable_no_line s hr hacc.2) L hL hm

theorem completed_lines_pass_through_last_move_witness :
    Reachable (play initialState [1, 4, 2, 5, 3, 7, 6, 8]) ∧
    ¬ hasWinningLine (play initialState [1, 4, 2, 5, 3, 7, 6, 8]).board ∧
    lineMatches (handleCellClick (play initialState [1, 4, 2, 5, 3, 7, 6, 8]) 0).board
      (0, 3, 6) ∧
    ((0 : Int) = ((0, 3, 6) : Nat × Nat × Nat).1 ∨ (0 : Int) = ((0, 3, 6) : Nat × Nat × Nat).2.1
      ∨ (0 : Int) = ((0, 3, 6) : Nat × Nat × Nat).2.2) :=
  have h := completed_lines_pass_through_last_move (play initialState [1, 4, 2, 5, 3, 7, 6, 8])
    (reachable_play initialState Reachable.init [1, 4, 2, 5, 3, 7, 6, 8]) 0
  ⟨reachable_play initialState Reachable.init [1, 4, 2, 5, 3, 7, 6, 8],
   h.1 (by decide), by decide, h.2 (by decide) (0, 3, 6) (by decide) (by decide)⟩

/-! ## Counting marks -/

theorem countMark_boardSet (board : List String) (i : Int) (v w : String)
    (h : boardGet board i = some "") (hw : w ≠ "") :
    countMark (boardSet board i v) w = countMark board w + (if v = w then 1 else 0) := by
  obtain ⟨h0, h1⟩ := (boardGet_some_iff board i "").1 h
  obtain ⟨hlt, hget⟩ := List.getElem?_eq_some.1 h1
  have hneg : ¬ i < 0 := by omega
  unfold countMark boardSet
  rw [if_neg hneg, List.count_set v w board i.toNat hlt, hget]
  have hw2 : ("" == w) = false := by
    rw [beq_eq_false_iff_ne]
    exact fun he => hw he.symm
  simp [hw2]

theorem markedCells_boardSet (board : List String) (i : Int) (v : String)
    (h : boardGet board i = some "") (hv : v ≠ "") :
    markedCells (boardSet board i v) = markedCells board + 1 := by
  obtain ⟨h0, h1⟩ := (boardGet_some_iff board i "").1 h
  obtain ⟨hlt, hget⟩ := List.getElem?_eq_some.1 h1
  have hneg : ¬ i < 0 := by omega
  unfold markedCells boardSet
  rw [if_neg hneg, List.countP_set _ board i.toNat v hlt, hget]
  simp [hv]

theorem markedCells_add_empty (board : List String) :
    markedCells board + countMark board "" = board.length := by
  induction board with
  | nil => rfl
  | cons c rest ih =>
    unfold markedCells countMark at ih ⊢
    rw [List.countP_cons, List.count_cons, List.length_cons]
    by_cases hc : c = ""
    · simp [hc]; omega
    · simp [hc]; omega

theorem countMark_empty_pos (board : List String) :
    0 < countMark board "" ↔ "" ∈ board := by
  unfold countMark
  exact List.count_pos_iff

theorem countMark_total (board : List String)
    (h : ∀ c ∈ board, c = "" ∨ c = "X" ∨ c = "O") :
    countMark board "" + countMark board "X" + countMark board "O" = board.length := by
  induction board with
  | nil => rfl
  | cons c rest ih =>
    have ih2 := ih (fun d hd => h d (List.mem_cons_of_mem c hd))
    unfold countMark at ih2 ⊢
    rw [List.count_cons, List.count_cons, List.count_cons, List.length_cons]
    rcases h c (List.mem_cons_self c rest) with hc | hc | hc
    · rw [hc]; simp; omega
    · rw [hc]; simp; omega
    · rw [hc]; simp; omega

theorem counts_after_mark (s : State) (i : Int) (hcell : boardGet s.board i = some "")
    (h : (s.currentPlayer = "X" ∧ countMark s.board "X" = countMark s.board "O") ∨
      (s.currentPlayer = "O" ∧ countMark s.board "X" = countMark s.board "O" + 1)) :
    (s.currentPlayer = "X" ∧
      countMark (boardSet s.board i s.currentPlayer) "X" =
        countMark (boardSet s.board i s.currentPlayer) "O" + 1) ∨
    (s.currentPlayer = "O" ∧
      countMark (boardSet s.board i s.currentPlayer) "X" =
        countMark (boardSet s.board i s.currentPlayer) "O") := by
  have hX := countMark_boardSet s.board i s.currentPlayer "X" hcell (by decide)
  have hO := countMark_boardSet s.board i s.currentPlayer "O" hcell (by decide)
  rcases h with ⟨hp, hc⟩ | ⟨hp, hc⟩
  · left
    rw [hp] at hX hO
    have e1 : ("X" : String) ≠ "O" := by decide
    rw [if_pos rfl] at hX
    rw [if_neg e1] at hO
    exact ⟨hp, by rw [hp, hX, hO, hc]⟩
  · right
    rw [hp] at hX hO
    have e1 : ("O" : String) ≠ "X" := by decide
    rw [if_neg e1] at hX
    rw [if_pos rfl] at hO
    exact ⟨hp, by rw [hp, hX, hO, hc]⟩

theorem handleResultValidation_cases (m : State) :
    (∃ L, winCondition m.board = some L ∧
      handleResultValidation m =
        { m with gameActive := false, statusDisplay := Status.won m.currentPlayer }) ∨
    (winCondition m.board = none ∧ "" ∉ m.board ∧
      handleResultValidation m = { m with gameActive := false, statusDisplay := Status.draw }) ∨
    (winCondition m.board = none ∧ "" ∈ m.board ∧
      handleResultValidation m = handlePlayerChange m) := by
  cases hw : winCondition m.board with
  | some L => exact Or.inl ⟨L, rfl, handleResultValidation_won m L hw⟩
  | none =>
    by_cases hcell : "" ∈ m.board
    · exact Or.inr (Or.inr ⟨rfl, hcell, handleResultValidation_continue m hw hcell⟩)
    · exact Or.inr (Or.inl ⟨rfl, hcell, handleResultValidation_draw m hw hcell⟩)

theorem gameInv_initialState : GameInv initialState where
  hasEmpty := fun _ => by decide
  finished := fun h => by cases h
  countsActive := fun _ => Or.inl (by decide)
  countsFinished := fun h => by cases h
  draw := fun h => by cases h

theorem gameInv_click (s : State) (hr : Reachable s) (hinv : GameInv s) (i : Int) :
    GameInv (handleCellClick s i) := by
  by_cases hacc : Accepted s i
  · have hlen2 : (boardSet s.board i s.currentPlayer).length = 9 := by
      rw [length_boardSet, reachable_length s hr]
    have hcnt := counts_after_mark s i hacc.1 (hinv.countsActive hacc.2)
    rw [handleCellClick_accepted s i hacc]
    rcases handleResultValidation_cases
      { s with board := boardSet s.board i s.currentPlayer } with
      ⟨L, hw, hs⟩ | ⟨hw, hfull, hs⟩ | ⟨hw, hcell, hs⟩
    · rw [hs]
      obtain ⟨pre, post, hl, hL, _⟩ := winCondition_eq_some _ hlen2 L hw
      exact {
        hasEmpty := fun h => by cases h
        finished := fun _ => Or.inl ⟨L, by rw [hl]; simp, hL⟩
        countsActive := fun h => by cases h
        countsFinished := fun _ => hcnt
        draw := fun h => by cases h }
    · rw [hs]
      exact {
        hasEmpty := fun h => by cases h
        finished := fun _ => Or.inr hfull
        countsActive := fun h => by cases h
        countsFinished := fun _ => hcnt
        draw := fun _ => ⟨rfl, hfull, not_hasWinningLine_of_winCondition_none _ hw⟩ }
    · rw [hs]
      have hact : (handlePlayerChange
          { s with board := boardSet s.board i s.currentPlayer }).gameActive = true := hacc.2
      exact {
        hasEmpty := fun _ => hcell
        finished := fun h => by rw [hact] at h; cases h
        countsActive := fun _ => by
          rcases hcnt with ⟨hp, hc⟩ | ⟨hp, hc⟩
          · right
            refine ⟨?_, hc⟩
            simp [handlePlayerChange, hp]
          · left
            refine ⟨?_, hc⟩
            simp [handlePlayerChange, hp]
        countsFinished := fun h => by rw [hact] at h; cases h
        draw := fun h => by cases h }
  · rw [handleCellClick_rejected s i hacc]
    exact hinv

theorem reachable_inv (s : State) (h : Reachable s) : GameInv s := by
  induction h with
  | init => exact gameInv_initialState
  | click s i hr ih => exact gameInv_click s hr ih i
  | reset s _ _ => exact gameInv_initialState

theorem card_le_countMark (board : List String) (m : String) (S : Finset ℕ)
    (h : ∀ k ∈ S, board[k]? = some m) : S.card ≤ countMark board m := by
  induction board generalizing S with
  | nil =>
    rcases S.eq_empty_or_nonempty with hS | ⟨k, hk⟩
    · rw [hS]; simp
    · have := h k hk
      simp at this
  | cons c rest ih =>
    have hT : ∀ k ∈ (S.erase 0).image Nat.pred, rest[k]? = some m := by
      intro k hk
      obtain ⟨a, ha, hak⟩ := Finset.mem_image.1 hk
      obtain ⟨ha0, haS⟩ := Finset.mem_erase.1 ha
      have hsucc : a = k + 1 := by
        have := Nat.succ_pred_eq_of_ne_zero ha0
        omega
      have := h a haS
      rw [hsucc, List.getElem?_cons_succ] at this
      exact this
    have hcard : ((S.erase 0).image Nat.pred).card = (S.erase 0).card := by
      apply Finset.card_image_of_injOn
      intro a ha b hb hab
      have ha0 : a ≠ 0 := (Finset.mem_erase.1 (Finset.mem_coe.1 ha)).1
      have hb0 : b ≠ 0 := (Finset.mem_erase.1 (Finset.mem_coe.1 hb)).1
      have h1 := Nat.succ_pred_eq_of_ne_zero ha0
      have h2 := Nat.succ_pred_eq_of_ne_zero hb0
      have hab2 : a.pred = b.pred := hab
      omega
    have hle := ih _ hT
    rw [hcard] at hle
    unfold countMark at hle ⊢
    by_cases h0 : 0 ∈ S
    · have hc : c = m := by
        have := h 0 h0
        rw [List.getElem?_cons_zero] at this
        exact Option.some.inj this
      rw [hc, List.count_cons_self, ← Finset.card_erase_add_one h0]
      omega
    · rw [Finset.erase_eq_of_not_mem h0] at hle
      rw [List.count_cons]
      omega

theorem two_lines_cells :
    ∀ L1 ∈ winningConditions, ∀ L2 ∈ winningConditions, L1 ≠ L2 →
      5 ≤ ({L1.1, L1.2.1, L1.2.2, L2.1, L2.2.1, L2.2.2} : Finset ℕ).card := by
  decide

theorem three_lines_cells :
    ∀ L1 ∈ winningConditions, ∀ L2 ∈ winningConditions, ∀ L3 ∈ winningConditions,
      L1 ≠ L2 → L1 ≠ L3 → L2 ≠ L3 →
      6 ≤ ({L1.1, L1.2.1, L1.2.2, L2.1, L2.2.1, L2.2.2, L3.1, L3.2.1, L3.2.2} :
        Finset ℕ).card := by
  decide

theorem line_mark_after_click (s : State) (i : Int) (hacc : Accepted s i)
    (hno : ¬ hasWinningLine s.board) (L : Nat × Nat × Nat) (hL : L ∈ winningConditions)
    (hm : lineMatches (boardSet s.board i s.currentPlayer) L) :
    (boardSet s.board i s.currentPlayer)[L.1]? = some s.currentPlayer ∧
    (boardSet s.board i s.currentPlayer)[L.2.1]? = some s.currentPlayer ∧
    (boardSet s.board i s.currentPlayer)[L.2.2]? = some s.currentPlayer := by
  have hin := line_through_click s i hno L hL hm
  have hself := boardGet_boardSet_self s.board i s.currentPlayer "" hacc.1
  obtain ⟨m, _, h1, h2, h3⟩ := hm
  have hmark : m = s.currentPlayer := by
    rcases hin with h | h | h
    · have h4 : (boardSet s.board i s.currentPlayer)[L.1]? = some s.currentPlayer := by
        rw [← boardGet_natCast, ← h]; exact hself
      rw [h1] at h4
      exact Option.some.inj h4
    · have h4 : (boardSet s.board i s.currentPlayer)[L.2.1]? = some s.currentPlayer := by
        rw [← boardGet_natCast, ← h]; exact hself
      rw [h2] at h4
      exact Option.some.inj h4
    · have h4 : (boardSet s.board i s.currentPlayer)[L.2.2]? = some s.currentPlayer := by
        rw [← boardGet_natCast, ← h]; exact hself
      rw [h3] at h4
      exact Option.some.inj h4
  rw [hmark] at h1 h2 h3
  exact ⟨h1, h2, h3⟩

theorem reachable_count_bounds (s : State) (hr : Reachable s) :
    countMark s.board "" + countMark s.board "X" + countMark s.board "O" = 9 ∧
    (countMark s.board "X" = countMark s.board "O" ∨
      countMark s.board "X" = countMark s.board "O" + 1) := by
  have htot := countMark_total s.board (reachable_cells s hr)
  rw [reachable_length s hr] at htot
  refine ⟨htot, ?_⟩
  have hinv := reachable_inv s hr
  cases hact : s.gameActive with
  | true =>
    rcases hinv.countsActive hact with ⟨_, h⟩ | ⟨_, h⟩
    · exact Or.inl h
    · exact Or.inr h
  | false =>
    rcases hinv.countsFinished hact with ⟨_, h⟩ | ⟨_, h⟩
    · exact Or.inr h
    · exact Or.inl h

theorem many_marks_is_ninth_move (s : State) (hr : Reachable s) (i : Int)
    (hacc : Accepted s i)
    (h5 : 5 ≤ countMark (boardSet s.board i s.currentPlayer) s.currentPlayer) :
    s.currentPlayer = "X" ∧ markedCells s.board = 8 ∧
      "" ∉ boardSet s.board i s.currentPlayer ∧
      countMark (boardSet s.board i s.currentPlayer) s.currentPlayer = 5 := by
  have hb := handleCellClick_board s i hacc
  obtain ⟨htot, hrel⟩ := reachable_count_bounds _ (Reachable.click s i hr)
  rw [hb] at htot hrel
  have hne : s.currentPlayer ≠ "" := by
    rcases reachable_player s hr with h | h <;> rw [h] <;> decide
  have hmk := markedCells_boardSet s.board i s.currentPlayer hacc.1 hne
  have hadd := markedCells_add_empty (boardSet s.board i s.currentPlayer)
  rw [length_boardSet, reachable_length s hr] at hadd
  have hpos := countMark_empty_pos (boardSet s.board i s.currentPlayer)
  rcases reachable_player s hr with hp | hp
  · rw [hp] at h5 htot hrel hmk hadd hpos ⊢
    refine ⟨rfl, by omega, ?_, by omega⟩
    intro hmem
    have := hpos.2 hmem
    omega
  · rw [hp] at h5 htot hrel
    omega

theorem markedCells_initial : markedCells initialState.board = 0 := by
  decide

theorem run_reachable (s : State) (hr : Reachable s) (events : List Event) :
    Reachable (run s events) := by
  induction events generalizing s with
  | nil => exact hr
  | cons e rest ih =>
    cases e with
    | click i => exact ih (handleCellClick s i) (Reachable.click s i hr)
    | reset => exact ih (handleResetGame s) (Reachable.reset s hr)

theorem markedCells_click (s : State) (hr : Reachable s) (i : Int) :
    markedCells (handleCellClick s i).board =
      if Accepted s i then markedCells s.board + 1 else markedCells s.board := by
  by_cases hacc : Accepted s i
  · rw [if_pos hacc, handleCellClick_board s i hacc]
    apply markedCells_boardSet s.board i s.currentPlayer hacc.1
    rcases reachable_player s hr with h | h <;> rw [h] <;> decide
  · rw [if_neg hacc, handleCellClick_rejected s i hacc]

theorem markedCells_run (s : State) (n : Nat) (events : List Event) (hr : Reachable s)
    (h : markedCells s.board = n) :
    markedCells (run s events).board = movesSinceReset s n events := by
  induction events generalizing s n with
  | nil => exact h
  | cons e rest ih =>
    cases e with
    | click i =>
      have hstep := markedCells_click s hr i
      rw [h] at hstep
      exact ih (handleCellClick s i) _ (Reachable.click s i hr) hstep
    | reset => exact ih (handleResetGame s) 0 (Reachable.reset s hr) markedCells_initial

theorem draw_state_facts (s : State) (hr : Reachable s)
    (hd : s.statusDisplay = Status.draw) :
    markedCells s.board = 9 ∧ s.currentPlayer = "X" ∧ ¬ hasWinningLine s.board ∧
      "" ∉ s.board ∧ s.gameActive = false := by
  have hinv := reachable_inv s hr
  obtain ⟨hact, hfull, hno⟩ := hinv.draw hd
  obtain ⟨htot, _⟩ := reachable_count_bounds s hr
  have hadd := markedCells_add_empty s.board
  rw [reachable_length s hr] at hadd
  have hzero : countMark s.board "" = 0 := by
    unfold countMark
    exact List.count_eq_zero.2 hfull
  refine ⟨by omega, ?_, hno, hfull, hact⟩
  rcases hinv.countsFinished hact with ⟨hp, _⟩ | ⟨_, hc⟩
  · exact hp
  · omega

/-- Claim C14, as stated, fails: in the legal alternating game
[1,4,2,5,3,7,6,8,0] the last move (X at cell 0) leaves two of the 8 winning
lines, the top row (0,1,2) and the left column (0,3,6), with all three cells
holding X. -/
theorem single_line_per_move_counterexample :
    LegalPlay initialState [1, 4, 2, 5, 3, 7, 6, 8, 0] ∧
    (0, 1, 2) ∈ winningConditions ∧ (0, 3, 6) ∈ winningConditions ∧
    ((0, 1, 2) : Nat × Nat × Nat) ≠ (0, 3, 6) ∧
    lineMatches (play initialState [1, 4, 2, 5, 3, 7, 6, 8, 0]).board (0, 1, 2) ∧
    lineMatches (play initialState [1, 4, 2, 5, 3, 7, 6, 8, 0]).board (0, 3, 6) ∧
    (winningConditions.filter (fun L =>
      decide (lineMatches (play initialState [1, 4, 2, 5, 3, 7, 6, 8, 0]).board L))).length
      = 2 := by
  decide

/-- Claim C14, amended. In every game played from the initial state, after each
accepted move at most one of the 8 winning lines is fully matching, except
when the move is the ninth of the game (X marks the last empty cell after
eight marked cells), where two lines may be fully matching at once; never more
than two lines are fully matching after a move. -/
theorem move_completes_at_most_two_lines (s : State) (hr : Reachable s) (i : Int)
    (hacc : Accepted s i) :
    (∀ L1 ∈ winningConditions, ∀ L2 ∈ winningConditions,
      lineMatches (handleCellClick s i).board L1 →
      lineMatches (handleCellClick s i).board L2 →
      L1 = L2 ∨
        (s.currentPlayer = "X" ∧ markedCells s.board = 8 ∧
          "" ∉ (handleCellClick s i).board)) ∧
    (∀ L1 ∈ winningConditions, ∀ L2 ∈ winningConditions, ∀ L3 ∈ winningConditions,
      lineMatches (handleCellClick s i).board L1 →
      lineMatches (handleCellClick s i).board L2 →
      lineMatches (handleCellClick s i).board L3 →
      L1 = L2 ∨ L1 = L3 ∨ L2 = L3) := by
  have hb := handleCellClick_board s i hacc
  have hno := reachable_no_line s hr hacc.2
  rw [hb]
  constructor
  · intro L1 hL1 L2 hL2 hm1 hm2
    by_cases hne : L1 = L2
    · exact Or.inl hne
    · right
      obtain ⟨a1, a2, a3⟩ := line_mark_after_click s i hacc hno L1 hL1 hm1
      obtain ⟨b1, b2, b3⟩ := line_mark_after_click s i hacc hno L2 hL2 hm2
      have hcard := card_le_countMark (boardSet s.board i s.currentPlayer) s.currentPlayer
        {L1.1, L1.2.1, L1.2.2, L2.1, L2.2.1, L2.2.2} (by
          intro k hk
          simp only [Finset.mem_insert, Finset.mem_singleton] at hk
          rcases hk with rfl | rfl | rfl | rfl | rfl | rfl
          · exact a1
          · exact a2
          · exact a3
          · exact b1
          · exact b2
          · exact b3)
      have h5 := two_lines_cells L1 hL1 L2 hL2 hne
      obtain ⟨hp, hmk, hfull, _⟩ := many_marks_is_ninth_move s hr i hacc (by omega)
      exact ⟨hp, hmk, hfull⟩
  · intro L1 hL1 L2 hL2 L3 hL3 hm1 hm2 hm3
    by_contra hall
    simp only [not_or] at hall
    obtain ⟨n12, n13, n23⟩ := hall
    obtain ⟨a1, a2, a3⟩ := line_mark_after_click s i hacc hno L1 hL1 hm1
    obtain ⟨b1, b2, b3⟩ := line_mark_after_click s i hacc hno L2 hL2 hm2
    obtain ⟨c1, c2, c3⟩ := line_mark_after_click s i hacc hno L3 hL3 hm3
    have hcard := card_le_countMark (boardSet s.board i s.currentPlayer) s.currentPlayer
      {L1.1, L1.2.1, L1.2.2, L2.1, L2.2.1, L2.2.2, L3.1, L3.2.1, L3.2.2} (by
        intro k hk
        simp only [Finset.mem_insert, Finset.mem_singleton] at hk
        rcases hk with rfl | rfl | rfl | rfl | rfl | rfl | rfl | rfl | rfl
        · exact a1
        · exact a2
        · exact a3
        · exact b1
        · exact b2
        · exact b3
        · exact c1
        · exact c2
        · exact c3)
    have h6 := three_lines_cells L1 hL1 L2 hL2 L3 hL3 n12 n13 n23
    obtain ⟨_, _, _, h5⟩ := many_marks_is_ninth_move s hr i hacc (by omega)
    omega

theorem move_completes_at_most_two_lines_witness :
    Reachable (play initialState [1, 4, 2, 5, 3, 7, 6, 8]) ∧
    Accepted (play initialState [1, 4, 2, 5, 3, 7, 6, 8]) 0 ∧
    (((0, 1, 2) : Nat × Nat × Nat) = (0, 3, 6) ∨
      ((play initialState [1, 4, 2, 5, 3, 7, 6, 8]).currentPlayer = "X" ∧
        markedCells (play initialState [1, 4, 2, 5, 3, 7, 6, 8]).board = 8 ∧
        "" ∉ (handleCellClick (play initialState [1, 4, 2, 5, 3, 7, 6, 8]) 0).board)) ∧
    Reachable (play initialState [0, 3, 1, 4]) ∧
    Accepted (play initialState [0, 3, 1, 4]) 2 ∧
    markedCells (play initialState [0, 3, 1, 4]).board = 4 :=
  ⟨reachable_play initialState Reachable.init [1, 4, 2, 5, 3, 7, 6, 8], by decide,
   (move_completes_at_most_two_lines (play initialState [1, 4, 2, 5, 3, 7, 6, 8])
      (reachable_play initialState Reachable.init [1, 4, 2, 5, 3, 7, 6, 8]) 0
      (by decide)).1 (0, 1, 2) (by decide) (0, 3, 6) (by decide) (by decide) (by decide),
   reachable_play initialState Reachable.init [0, 3, 1, 4], by decide, by decide⟩

/-- Claim C15. A draw happens exactly at the ninth move: for every sequence of
cell clicks (any integer index) and resets from the initial state, the number
of marked cells equals the number of clicks accepted since the last reset; that
number is at most 9; after the 9th accepted click the game is over; the draw
status is shown only with 9 accepted clicks, X being the current player and no
line fully matching; and the click that enters the draw status is an accepted
one made by X on a board with 8 marked cells. -/
theorem draw_at_ninth_move (events : List Event) :
    markedCells (run initialState events).board = movesSinceReset initialState 0 events ∧
    movesSinceReset initialState 0 events ≤ 9 ∧
    (movesSinceReset initialState 0 events = 9 →
      (run initialState events).gameActive = false) ∧
    ((run initialState events).statusDisplay = Status.draw →
      movesSinceReset initialState 0 events = 9 ∧
      (run initialState events).currentPlayer = "X" ∧
      ¬ hasWinningLine (run initialState events).board ∧
      (run initialState events).gameActive = false) ∧
    (∀ i : Int, (run initialState events).statusDisplay ≠ Status.draw →
      (handleCellClick (run initialState events) i).statusDisplay = Status.draw →
      Accepted (run initialState events) i ∧
      movesSinceReset initialState 0 events = 8 ∧
      (run initialState events).currentPlayer = "X" ∧
      ¬ hasWinningLine (handleCellClick (run initialState events) i).board) := by
  have hm := markedCells_run initialState 0 events Reachable.init markedCells_initial
  have hr := run_reachable initialState Reachable.init events
  rw [← hm]
  generalize run initialState events = s at hr
  have hadd := markedCells_add_empty s.board
  rw [reachable_length s hr] at hadd
  refine ⟨rfl, by omega, ?_, ?_, ?_⟩
  · intro h9
    cases hact : s.gameActive with
    | false => rfl
    | true =>
      have hpos := (countMark_empty_pos s.board).2 ((reachable_inv s hr).hasEmpty hact)
      omega
  · intro hd
    obtain ⟨h9, hp, hno, _, hact⟩ := draw_state_facts s hr hd
    exact ⟨h9, hp, hno, hact⟩
  · intro i hnd hd
    have hacc : Accepted s i := by
      by_contra hrej
      rw [handleCellClick_rejected s i hrej] at hd
      exact hnd hd
    obtain ⟨h9, hp, hno, _, _⟩ := draw_state_facts _ (Reachable.click s i hr) hd
    have hstep := markedCells_click s hr i
    rw [if_pos hacc] at hstep
    refine ⟨hacc, by omega, ?_, hno⟩
    rw [handleCellClick_accepted s i hacc] at hd hp
    rcases handleResultValidation_cases
      { s with board := boardSet s.board i s.currentPlayer } with
      ⟨L, _, hs⟩ | ⟨_, _, hs⟩ | ⟨_, _, hs⟩
    · rw [hs] at hd; cases hd
    · rw [hs] at hp; exact hp
    · rw [hs] at hd; cases hd

theorem draw_at_ninth_move_witness :
    movesSinceReset initialState 0
      (List.map Event.click [0, 0, 4, 9]) = 2 ∧
    (run initialState
      (Event.click 4 :: Event.reset :: List.map Event.click [0, 1, 2, 4, 3, 5, 7, 6]
        )).statusDisplay ≠ Status.draw ∧
    (handleCellClick (run initialState
      (Event.click 4 :: Event.reset :: List.map Event.click [0, 1, 2, 4, 3, 5, 7, 6])) 8
        ).statusDisplay = Status.draw ∧
    movesSinceReset initialState 0
      (Event.click 4 :: Event.reset :: List.map Event.click [0, 1, 2, 4, 3, 5, 7, 6]) = 8 ∧
    (run initialState
      (Event.click 4 :: Event.reset :: List.map Event.click [0, 1, 2, 4, 3, 5, 7, 6])
        ).currentPlayer = "X" :=
  have h := (draw_at_ninth_move
    (Event.click 4 :: Event.reset :: List.map Event.click [0, 1, 2, 4, 3, 5, 7, 6])).2.2.2.2
      8 (by decide) (by decide)
  ⟨by decide, by decide, by decide, h.2.1, h.2.2.1⟩

/-- Claim C16. The winning-line table is exactly the 8 lines of the 3x3 grid in
row-major indexing: it has 8 entries, in order the rows (3r, 3r+1, 3r+2) for
r = 0,1,2, the columns (c, c+3, c+6) for c = 0,1,2 and the diagonals (0,4,8)
and (2,4,6); every entry is a triple of pairwise distinct indices in 0..8,
listed in increasing order and collinear in the grid; no two entries are
equal; and every set of three collinear cells of the grid, listed in
increasing order, is an entry. -/
theorem winning_table_exact :
    winningConditions.length = 8 ∧
    (∀ r < 3, winningConditions[r]? = some (3 * r, 3 * r + 1, 3 * r + 2)) ∧
    (∀ c < 3, winningConditions[3 + c]? = some (c, c + 3, c + 6)) ∧
    winningConditions[6]? = some (0, 4, 8) ∧
    winningConditions[7]? = some (2, 4, 6) ∧
    (∀ L ∈ winningConditions,
      L.1 ≠ L.2.1 ∧ L.1 ≠ L.2.2 ∧ L.2.1 ≠ L.2.2 ∧ L.1 < 9 ∧ L.2.1 < 9 ∧ L.2.2 < 9) ∧
    (∀ L ∈ winningConditions, L.1 < L.2.1 ∧ L.2.1 < L.2.2 ∧ collinear L.1 L.2.1 L.2.2) ∧
    winningConditions.Nodup ∧
    (∀ p < 9, ∀ q < 9, ∀ r < 9, p < q → q < r → collinear p q r →
      (p, q, r) ∈ winningConditions) := by
  refine ⟨by decide, by decide, by decide, by decide, by decide, by decide, by decide,
    by decide, ?_⟩
  intro p hp q hq r hr
  exact (by decide : ∀ p ∈ List.range 9, ∀ q ∈ List.range 9, ∀ r ∈ List.range 9,
    p < q → q < r → collinear p q r → (p, q, r) ∈ winningConditions)
    p (List.mem_range.2 hp) q (List.mem_range.2 hq) r (List.mem_range.2 hr)

theorem winning_table_exact_witness :
    winningConditions[2]? = some (6, 7, 8) ∧
    winningConditions[4]? = some (1, 4, 7) ∧
    collinear 2 4 6 ∧ (2, 4, 6) ∈ winningConditions :=
  ⟨winning_table_exact.2.1 2 (by decide),
   winning_table_exact.2.2.1 1 (by decide),
   by decide,
   winning_table_exact.2.2.2.2.2.2.2.2 2 (by decide) 4 (by decide) 6 (by decide)
     (by decide) (by decide) (by decide)⟩

/-- Claim C17. Status flag agrees with the board: in every state reachable from
the initial state by cell clicks and resets, gameActive is true if and only if
no winning line has all three cells holding the same non-empty mark and at
least one cell is empty. -/
theorem status_flag_agrees_with_board (s : State) (hr : Reachable s) :
    s.gameActive = true ↔ (¬ hasWinningLine s.board ∧ "" ∈ s.board) := by
  have hinv := reachable_inv s hr
  constructor
  · intro hact
    exact ⟨reachable_no_line s hr hact, hinv.hasEmpty hact⟩
  · rintro ⟨hno, hcell⟩
    cases hact : s.gameActive with
    | true => rfl
    | false =>
      rcases hinv.finished hact with h | h
      · exact absurd h hno
      · exact absurd hcell h

theorem status_flag_agrees_with_board_witness :
    Reachable (play initialState [0, 3, 1, 4, 2]) ∧
    ((play initialState [0, 3, 1, 4, 2]).gameActive = true ↔
      (¬ hasWinningLine (play initialState [0, 3, 1, 4, 2]).board ∧
        "" ∈ (play initialState [0, 3, 1, 4, 2]).board)) ∧
    (play initialState [0, 3, 1, 4, 2]).gameActive = false ∧
    hasWinningLine (play initialState [0, 3, 1, 4, 2]).board :=
  ⟨reachable_play initialState Reachable.init [0, 3, 1, 4, 2],
   status_flag_agrees_with_board (play initialState [0, 3, 1, 4, 2])
     (reachable_play initialState Reachable.init [0, 3, 1, 4, 2]),
   by decide, by decide⟩

/-- Claim C18. Mark-count invariant: in every state reachable from the initial
state by cell clicks and resets, the number of X cells minus the number of O
cells is 0 or 1; while gameActive is true, currentPlayer is X exactly when the
two counts are equal and O exactly when X has one more; once the game is over,
currentPlayer is X exactly when X has one more mark than O and O exactly when
the counts are equal (currentPlayer is the player who moved last). -/
theorem mark_count_invariant (s : State) (hr : Reachable s) :
    (((countMark s.board "X" : Nat) : Int) - ((countMark s.board "O" : Nat) : Int) = 0 ∨
      ((countMark s.board "X" : Nat) : Int) - ((countMark s.board "O" : Nat) : Int) = 1) ∧
    (s.gameActive = true →
      (s.currentPlayer = "X" ↔ countMark s.board "X" = countMark s.board "O") ∧
      (s.currentPlayer = "O" ↔ countMark s.board "X" = countMark s.board "O" + 1)) ∧
    (s.gameActive = false →
      (s.currentPlayer = "X" ↔ countMark s.board "X" = countMark s.board "O" + 1) ∧
      (s.currentPlayer = "O" ↔ countMark s.board "X" = countMark s.board "O")) := by
  have hinv := reachable_inv s hr
  have hxo : ("X" : String) ≠ "O" := by decide
  refine ⟨?_, ?_, ?_⟩
  · rcases (reachable_count_bounds s hr).2 with h | h
    · left; omega
    · right; omega
  · intro hact
    rcases hinv.countsActive hact with ⟨hp, hc⟩ | ⟨hp, hc⟩
    · refine ⟨⟨fun _ => hc, fun _ => hp⟩, ⟨fun ho => ?_, fun h1 => ?_⟩⟩
      · rw [hp] at ho; exact absurd ho hxo
      · omega
    · refine ⟨⟨fun hx => ?_, fun h0 => ?_⟩, ⟨fun _ => hc, fun _ => hp⟩⟩
      · rw [hp] at hx; exact absurd hx.symm hxo
      · omega
  · intro hact
    rcases hinv.countsFinished hact with ⟨hp, hc⟩ | ⟨hp, hc⟩
    · refine ⟨⟨fun _ => hc, fun _ => hp⟩, ⟨fun ho => ?_, fun h1 => ?_⟩⟩
      · rw [hp] at ho; exact absurd ho hxo
      · omega
    · refine ⟨⟨fun hx => ?_, fun h0 => ?_⟩, ⟨fun _ => hc, fun _ => hp⟩⟩
      · rw [hp] at hx; exact absurd hx.symm hxo
      · omega

theorem mark_count_invariant_witness :
    Reachable (play initialState [4, 0, 1, 3, 8, 6]) ∧
    (play initialState [4, 0, 1, 3, 8, 6]).gameActive = false ∧
    ((play initialState [4, 0, 1, 3, 8, 6]).currentPlayer = "O" ↔
      countMark (play initialState [4, 0, 1, 3, 8, 6]).board "X" =
        countMark (play initialState [4, 0, 1, 3, 8, 6]).board "O") ∧
    Reachable (play initialState [4, 0, 1]) ∧
    (play initialState [4, 0, 1]).gameActive = true ∧
    ((play initialState [4, 0, 1]).currentPlayer = "O" ↔
      countMark (play initialState [4, 0, 1]).board "X" =
        countMark (play initialState [4, 0, 1]).board "O" + 1) :=
  ⟨reachable_play initialState Reachable.init [4, 0, 1, 3, 8, 6], by decide,
   ((mark_count_invariant (play initialState [4, 0, 1, 3, 8, 6])
      (reachable_play initialState Reachable.init [4, 0, 1, 3, 8, 6])).2.2 (by decide)).2,
   reachable_play initialState Reachable.init [4, 0, 1], by decide,
   ((mark_count_invariant (play initialState [4, 0, 1])
      (reachable_play initialState Reachable.init [4, 0, 1])).2.1 (by decide)).2⟩

end TicTacToe
